import Mathlib

/-!
Verification of the Set data-type layer of the storage engine
(`src/storage/src/redis_sets.cc`).

The operations of `storage::Redis` are shallowly embedded over an explicit
store state.  The codec helpers (`BaseMetaKey`, `ParsedSetsMetaValue`,
`IsStale`, `InitialMetaValue`, `check_set_count`, `CheckModifyCount`,
the scan-cursor store and glob matching) are not part of the source file
under study; they are modelled from the specification, as marked on each
definition.

Store model: the meta column family is a map from encoded meta-key bytes
(strings) to decoded meta values; the data column family is exposed as, for
every pair of user key and version, the byte-ordered run of member strings
that a prefix seek over `SetsMemberKey(key, version, "")` would enumerate
(the spec guarantees all members of a given version sort contiguously and
separately from other versions).  Iteration past the end of a run is the end
of the data column family.  Wall-clock reads (seconds for staleness, micros
for version allocation) are passed in as explicit parameters.  The
pseudo-random engine is passed in as a stream of draws, and the final
`std::shuffle` of SRANDMEMBER as an explicit reordering function.
-/

/-- Data-type tag of a meta record.  Modelled from the spec:
`type_tag ∈ {String,List,Hash,Set,ZSet}`. -/
inductive DataType where
  | kStrings
  | kLists
  | kHashes
  | kSets
  | kZSets
deriving DecidableEq, Repr

/-- Modelled from the spec: the printable names indexed by `DataTypeStrings`
in the source; only used to build WRONGTYPE messages. -/
def dataTypeStrings : DataType → String
  | .kStrings => ("string")
  | .kLists => ("list")
  | .kHashes => ("hash")
  | .kSets => ("set")
  | .kZSets => ("zset")

/-- Status codes surfaced by the storage layer (spec section 6: OK, NotFound,
Corruption, InvalidArgument). -/
inductive Status where
  | ok
  | notFound
  | invalidArgument (msg : String)
  | corruption (msg : String)
deriving DecidableEq, Repr

/-- The WRONGTYPE message built with `fmt::format` on most paths of the
source: `WRONGTYPE, key: K, expect type: set, get type: T`. -/
def wrongTypeMsg (key : String) (got : DataType) : String :=
  ("WRONGTYPE, key: ") ++ key ++ (", expect type: ") ++ dataTypeStrings .kSets ++
    (", get type: ") ++ dataTypeStrings got

/-- The slightly different WRONGTYPE message built by string concatenation on
the SMove destination path (source lines 752-754; it lacks the comma and the
space before `get type`). -/
def wrongTypeMsgMove (key : String) (got : DataType) : String :=
  ("WRONGTYPE, key: ") ++ key ++ (", expect type: ") ++ dataTypeStrings .kSets ++
    ("get type: ") ++ dataTypeStrings got

/-- Decoded meta value.  Modelled from the spec:
`type_tag (1B) | reserved (1B) | version (8B) | etime (8B) | payload`, the
payload of a Set being its 32-bit count. -/
structure SetsMetaValue where
  dataType : DataType
  count : Int
  version : Nat
  etime : Nat
deriving DecidableEq, Repr

/-- Modelled from the spec: freshness probe; a meta value is stale iff
`etime != 0 && etime <= now`. -/
def IsStale (now : Nat) (mv : SetsMetaValue) : Bool :=
  decide (mv.etime ≠ 0 ∧ mv.etime ≤ now)

/-- Modelled from the spec: `ExpectedMetaValue` decodes only the type tag. -/
def ExpectedMetaValue (t : DataType) (mv : SetsMetaValue) : Bool :=
  decide (mv.dataType = t)

/-- Largest value of a signed 32-bit count (spec: `count` fits in `i32`). -/
def maxInt32 : Int := 2 ^ 31 - 1

/-- Value of a `static_cast<int32_t>` applied to an unsigned size, and of a
count stored through `EncodeFixed32`/decoded as `i32`: reduction mod 2^32
reinterpreted as a signed 32-bit value. -/
def toInt32 (n : Nat) : Int :=
  let m : Nat := n % 2 ^ 32
  if m < 2 ^ 31 then (m : Int) else (m : Int) - 2 ^ 32

/-- Modelled from the spec: `check_set_count` accepts a prospective count iff
it stays inside the signed 32-bit range. -/
def check_set_count (c : Int) : Bool :=
  decide (0 ≤ c ∧ c ≤ maxInt32)

/-- Modelled from the spec: `CheckModifyCount(delta)` accepts iff the
modified count stays inside the signed 32-bit range (no overflow, no
negative count). -/
def CheckModifyCount (count delta : Int) : Bool :=
  decide (0 ≤ count + delta ∧ count + delta ≤ maxInt32)

/-- Modelled from the spec (section 4.4): version allocation produces
`max(now_micros, prev_version + 1)`, strictly greater than the previous
version. -/
def UpdateVersion (clock : Nat) (prev : Nat) : Nat :=
  max clock (prev + 1)

/-- Modelled from the spec: `InitialMetaValue` reuses a stale/empty meta
slot or performs a logical delete: it advances the version, zeroes the
count and clears the expiration, returning the new version alongside the
updated meta value. -/
def InitialMetaValue (clock : Nat) (mv : SetsMetaValue) : Nat × SetsMetaValue :=
  let v := UpdateVersion clock mv.version
  (v, { mv with version := v, count := 0, etime := 0 })

/-- Modelled from the spec: `BaseMetaKey` encoding is the prefix-length
encoded user key followed by a reserved type-discriminant byte; it is never
equal to the raw user-key bytes. -/
def baseMetaKey (k : String) : String :=
  Nat.repr k.length ++ (":") ++ k ++ ("!")

/-- Byte-wise strict order on strings, mirroring the byte-ordered keyspace
of the underlying store (chars stand for bytes in the model). -/
def strLtAux : List Char → List Char → Bool
  | [], [] => false
  | [], _ :: _ => true
  | _ :: _, [] => false
  | c :: cs, d :: ds =>
    if c.val < d.val then true
    else if d.val < c.val then false
    else strLtAux cs ds

/-- Byte-wise strict order on member strings. -/
def strLt (a b : String) : Bool :=
  strLtAux a.data b.data

/-- Executable prefix test on the model strings (the source uses
`Slice::starts_with`). -/
def strStartsWithAux : List Char → List Char → Bool
  | _, [] => true
  | [], _ :: _ => false
  | c :: cs, d :: ds => if c = d then strStartsWithAux cs ds else false

/-- Executable prefix test on member strings. -/
def strStartsWith (s p : String) : Bool :=
  strStartsWithAux s.data p.data

/-- The first-occurrence deduplication loop shared by the `unordered_set`
filter at the top of `SAdd` and the `result_flag` map of the union
operations: keep a member iff it has not been seen yet. -/
def dedupAux : List String → List String → List String
  | [], _ => []
  | x :: xs, seen =>
    if x ∈ seen then dedupAux xs seen else x :: dedupAux xs (x :: seen)

/-- First-occurrence deduplication of a member list. -/
def dedupFirst (l : List String) : List String :=
  dedupAux l []

/-- A `Put` of a member key into a run of the data column family: a no-op if
the key is already present, otherwise an insertion at its byte-ordered
position. -/
def insertRun (m : String) : List String → List String
  | [] => [m]
  | x :: xs =>
    if m = x then x :: xs
    else if strLt m x then m :: x :: xs
    else x :: insertRun m xs

/-- A `Put` that is idempotent on present keys (store key-set semantics). -/
def putRunMember (run : List String) (m : String) : List String :=
  if m ∈ run then run else insertRun m run

/-- The store state: meta column family keyed by encoded (or, where the
source slips, raw) meta-key bytes; data column family exposed as the
byte-ordered run of members for every (user key, version) prefix; and the
scan-cursor store keyed by (key, pattern, cursor) for the Set type. -/
structure DB where
  meta : String → Option SetsMetaValue
  data : String → Nat → List String
  scan : String → String → Int → Option String

/-- The store with no records at all. -/
def emptyDB : DB where
  meta := fun _ => none
  data := fun _ _ => []
  scan := fun _ _ _ => none

/-- Point read of the meta record of a user key (through the encoded meta
key). -/
def getMeta (db : DB) (k : String) : Option SetsMetaValue :=
  db.meta (baseMetaKey k)

/-- `Put` of a meta value at explicit meta-column-family key bytes. -/
def putMetaRaw (db : DB) (bytes : String) (mv : SetsMetaValue) : DB :=
  { db with meta := fun x => if x = bytes then some mv else db.meta x }

/-- `Put` of the meta record of a user key (through the encoded meta key). -/
def putMeta (db : DB) (k : String) (mv : SetsMetaValue) : DB :=
  putMetaRaw db (baseMetaKey k) mv

/-- `Delete` of the meta record of a user key. -/
def delMeta (db : DB) (k : String) : DB :=
  { db with meta := fun x => if x = baseMetaKey k then none else db.meta x }

/-- Replace the whole run of a (user key, version) prefix. -/
def setRun (db : DB) (k : String) (v : Nat) (run : List String) : DB :=
  { db with data := fun x u => if x = k ∧ u = v then run else db.data x u }

/-- `Put` of one member record. -/
def putMember (db : DB) (k : String) (v : Nat) (m : String) : DB :=
  setRun db k v (putRunMember (db.data k v) m)

/-- `Put` of a list of member records, in order. -/
def putMembers (db : DB) (k : String) (v : Nat) (ms : List String) : DB :=
  ms.foldl (fun d m => putMember d k v m) db

/-- `Delete` of one member record (and, when iterating, of every staged
duplicate of the same key). -/
def delMember (db : DB) (k : String) (v : Nat) (m : String) : DB :=
  setRun db k v ((db.data k v).filter (fun x => decide (x ≠ m)))

/-- Store an entry of the scan-cursor store (`StoreScanNextPoint`).
Modelled from the spec: persists `(type, key, pattern, cursor) →
resume_point`. -/
def setScan (db : DB) (k pat : String) (cur : Int) (pt : String) : DB :=
  { db with scan := fun a b c => if a = k ∧ b = pat ∧ c = cur then some pt else db.scan a b c }

/-- Error outcomes of the embedded pseudo-random drawing loops: a modulo by
zero (undefined behaviour in the source) or exhaustion of the fuel bounding
the rejection loop. -/
inductive RandErr where
  | divByZero
  | outOfFuel
deriving DecidableEq, Repr

instance {ε α : Type} [DecidableEq ε] [DecidableEq α] : DecidableEq (Except ε α) :=
  fun x y =>
    match x, y with
    | .ok a, .ok b => if h : a = b then isTrue (by rw [h]) else isFalse (by simp [h])
    | .error a, .error b => if h : a = b then isTrue (by rw [h]) else isFalse (by simp [h])
    | .ok _, .error _ => isFalse (by simp)
    | .error _, .ok _ => isFalse (by simp)

/-- The distinct-index drawing loop shared by `SPop` and the positive branch
of `SRandmember`: repeatedly draw `engine() % modnum` and keep fresh values
until `need` of them are collected.  `rng i` is the i-th output of the
engine; `fuel` bounds the rejection loop. -/
def drawDistinct (rng : Nat → Nat) : Nat → Nat → Nat → Nat → List Nat →
    Except RandErr (List Nat)
  | _, 0, _, need, acc =>
    if acc.length = need then .ok acc.reverse else .error .outOfFuel
  | i, fuel + 1, modnum, need, acc =>
    if acc.length = need then .ok acc.reverse
    else if modnum = 0 then .error .divByZero
    else
      let t := rng i % modnum
      if t ∈ acc then drawDistinct rng (i + 1) fuel modnum need acc
      else drawDistinct rng (i + 1) fuel modnum need (t :: acc)

/-- The duplicate-allowing drawing loop of the negative branch of
`SRandmember`: exactly `need` draws of `engine() % modnum`, modulo by zero
being undefined behaviour. -/
def drawDup (rng : Nat → Nat) (need modnum : Nat) : Except RandErr (List Nat) :=
  if need = 0 then .ok []
  else if modnum = 0 then .error .divByZero
  else .ok ((List.range need).map (fun i => rng i % modnum))

/-- The position-collection walk shared by `SPop`'s random regime and
`SRandmember`: walk the enumerated run and the ascending target list
together, emitting the member at every matching target position (repeated
targets emit the member repeatedly). -/
def collectTargets : Nat → List (Nat × String) → List Nat → List String
  | 0, _, _ => []
  | _, _, [] => []
  | _, [], _ :: _ => []
  | fuel + 1, (i, m) :: en, t :: ts =>
    if t = i then m :: collectTargets fuel ((i, m) :: en) ts
    else collectTargets fuel en (t :: ts)

/-- The position-collection walk with enough fuel for the whole walk. -/
def collectAll (en : List (Nat × String)) (ts : List Nat) : List String :=
  collectTargets (en.length + ts.length) en ts

/-- Class-set scanner of the glob matcher: scans a `[set]` body against a
candidate char, accumulating whether any element (plain, escaped, or range
`a-b`) matches, and returns the rest of the pattern after the closing
bracket; `none` on an unterminated class.  Modelled from the spec (glob
matching with `*`, `?`, `[set]`, escapes); fuel bounds the scan. -/
def scanClass : Nat → List Char → Char → Bool → Option (Bool × List Char)
  | 0, _, _, _ => none
  | fuel + 1, l, c, acc =>
    match l with
    | [] => none
    | ']' :: rest => some (acc, rest)
    | '\\' :: e :: rest => scanClass fuel rest c (acc || decide (e = c))
    | a :: '-' :: b :: rest =>
      if b = ']' then scanClass fuel (('-') :: b :: rest) c (acc || decide (a = c))
      else scanClass fuel rest c (acc || decide (a.val ≤ c.val ∧ c.val ≤ b.val))
    | a :: rest => scanClass fuel rest c (acc || decide (a = c))

/-- Glob matcher.  Modelled from the spec: `StringMatch` applies glob
matching with `*`, `?`, `[set]` (with `^` negation and ranges) and
backslash escapes; fuel bounds the backtracking. -/
def globMatch : Nat → List Char → List Char → Bool
  | 0, _, _ => false
  | fuel + 1, p, t =>
    match p, t with
    | [], [] => true
    | [], _ :: _ => false
    | '*' :: ps, _ =>
      globMatch fuel ps t ||
        (match t with
         | [] => false
         | _ :: ts => globMatch fuel (('*') :: ps) ts)
    | '?' :: ps, _ :: ts => globMatch fuel ps ts
    | '?' :: _, [] => false
    | '\\' :: e :: ps, c :: ts => decide (e = c) && globMatch fuel ps ts
    | '\\' :: _, _ => false
    | '[' :: ps, c :: ts =>
      let pr := match ps with
        | '^' :: r => (true, r)
        | _ => (false, ps)
      match scanClass fuel pr.2 c false with
      | none => false
      | some (m, rest) => (m != pr.1) && globMatch fuel rest ts
    | '[' :: _, [] => false
    | a :: ps, c :: ts => decide (a = c) && globMatch fuel ps ts
    | _ :: _, [] => false

/-- Modelled from the spec: glob matching of a member against the SSCAN
pattern. -/
def StringMatch (pat mem : String) : Bool :=
  globMatch (pat.data.length + mem.data.length + 1) pat.data mem.data

/-- Modelled from the spec: a tail-wildcard pattern `xxxx*` is a non-empty
pattern whose only metacharacter is a final `*`. -/
def isTailWildcard (p : String) : Bool :=
  decide (p.data ≠ []) && decide (p.data.getLast? = some ('*')) &&
    p.data.dropLast.all
      (fun c => decide (c ≠ '*' ∧ c ≠ '?' ∧ c ≠ '[' ∧ c ≠ ']' ∧ c ≠ '\\'))

/-- `pattern.substr(0, pattern.size() - 1)`. -/
def dropLastChar (p : String) : String :=
  String.mk p.data.dropLast

namespace Redis

/-- The branch of `SAdd` taken when the meta record is absent (or present,
non-Set and stale): build a fresh Set meta whose count is the
`EncodeFixed32` image of the number of filtered members — note the absence
of any overflow guard on this path (source lines 135-146) — allocate a
fresh version, and put every filtered member. -/
def SAddFresh (clock : Nat) (db : DB) (key : String) (filtered : List String) :
    Status × Int × DB :=
  let v := UpdateVersion clock 0
  let mv : SetsMetaValue :=
    { dataType := .kSets, count := toInt32 filtered.length, version := v, etime := 0 }
  let db1 := putMeta db key mv
  let db2 := putMembers db1 key v filtered
  (.ok, toInt32 filtered.length, db2)

/-- `Redis::SAdd` (source lines 66-151).  Returns the status, the
`ret` output parameter and the committed store. -/
def SAdd (now clock : Nat) (db : DB) (key : String) (members : List String) :
    Status × Int × DB :=
  let filtered := dedupFirst members
  match getMeta db key with
  | some mv =>
    if ¬ ExpectedMetaValue .kSets mv then
      if IsStale now mv then SAddFresh clock db key filtered
      else (.invalidArgument (wrongTypeMsg key mv.dataType), 0, db)
    else if IsStale now mv ∨ mv.count = 0 then
      let p := InitialMetaValue clock mv
      if ¬ check_set_count (toInt32 filtered.length) then
        (.invalidArgument ("set size overflow"), 0, db)
      else
        let mv2 := { p.2 with count := toInt32 filtered.length }
        let db1 := putMeta db key mv2
        let db2 := putMembers db1 key p.1 filtered
        (.ok, toInt32 filtered.length, db2)
    else
      let v := mv.version
      let run := db.data key v
      let newMems := filtered.filter (fun m => decide (m ∉ run))
      let cnt : Int := (newMems.length : Int)
      if cnt = 0 then (.ok, 0, db)
      else if ¬ CheckModifyCount mv.count cnt then
        (.invalidArgument ("set size overflow"), cnt, db)
      else
        let db1 := putMembers db key v newMems
        let db2 := putMeta db1 key { mv with count := mv.count + cnt }
        (.ok, cnt, db2)
  | none => SAddFresh clock db key filtered

/-- `Redis::SCard` (source lines 153-175). -/
def SCard (now : Nat) (db : DB) (key : String) : Status × Int :=
  match getMeta db key with
  | none => (.notFound, 0)
  | some mv =>
    if IsStale now mv then (.notFound, 0)
    else if ¬ ExpectedMetaValue .kSets mv then
      (.invalidArgument (wrongTypeMsg key mv.dataType), 0)
    else if mv.count = 0 then (.notFound, mv.count)
    else (.ok, mv.count)

/-- `Redis::SIsmember` (source lines 580-611): the status of the member
point read is returned, `ret` is 1 iff it was found. -/
def SIsmember (now : Nat) (db : DB) (key member : String) : Status × Int :=
  match getMeta db key with
  | none => (.notFound, 0)
  | some mv =>
    if IsStale now mv then (.notFound, 0)
    else if ¬ ExpectedMetaValue .kSets mv then
      (.invalidArgument (wrongTypeMsg key mv.dataType), 0)
    else if member ∈ db.data key mv.version then (.ok, 1)
    else (.notFound, 0)

/-- `Redis::SMembers` (source lines 613-646): a prefix scan of the run of
the current version.  A zero count is not checked on this path. -/
def SMembers (now : Nat) (db : DB) (key : String) : Status × List String :=
  match getMeta db key with
  | none => (.notFound, [])
  | some mv =>
    if IsStale now mv then (.notFound, [])
    else if ¬ ExpectedMetaValue .kSets mv then
      (.invalidArgument (wrongTypeMsg key mv.dataType), [])
    else (.ok, db.data key mv.version)

/-- `Redis::SRem` (source lines 968-1019).  Each requested member is point
read against the pre-batch store, so a member repeated in the request is
counted (and its deletion staged) once per occurrence. -/
def SRem (now : Nat) (db : DB) (key : String) (members : List String) :
    Status × Int × DB :=
  match getMeta db key with
  | none => (.notFound, 0, db)
  | some mv =>
    if IsStale now mv then (.notFound, 0, db)
    else if ¬ ExpectedMetaValue .kSets mv then
      (.invalidArgument (wrongTypeMsg key mv.dataType), 0, db)
    else
      let v := mv.version
      let run := db.data key v
      let cnt : Int := (members.countP (fun m => decide (m ∈ run)) : Nat)
      if ¬ CheckModifyCount mv.count (-cnt) then
        (.invalidArgument ("set size overflow"), cnt, db)
      else
        let db1 := setRun db key v (run.filter (fun x => decide (x ∉ members)))
        let db2 := putMeta db1 key { mv with count := mv.count - cnt }
        (.ok, cnt, db2)

/-- The gathering loop over `keys[1..]` (SDiff) or all keys (SUnion):
absent or stale keys are skipped, a live non-Set key raises WRONGTYPE, a
live Set key contributes its (key, version) pair. -/
def gatherValid (now : Nat) (db : DB) : List String →
    Except Status (List (String × Nat))
  | [] => .ok []
  | k :: rest =>
    match getMeta db k with
    | none => gatherValid now db rest
    | some mv =>
      if IsStale now mv then gatherValid now db rest
      else if ¬ ExpectedMetaValue .kSets mv then
        .error (.invalidArgument (wrongTypeMsg k mv.dataType))
      else do
        let tail ← gatherValid now db rest
        .ok ((k, mv.version) :: tail)

/-- The gathering loop of SInter/SInterstore over `keys[1..]`: an absent or
stale key makes the whole intersection empty (`none`), a live non-Set key
raises WRONGTYPE. -/
def gatherInter (now : Nat) (db : DB) : List String →
    Except Status (Option (List (String × Nat)))
  | [] => .ok (some [])
  | k :: rest =>
    match getMeta db k with
    | none => .ok none
    | some mv =>
      if IsStale now mv then .ok none
      else if ¬ ExpectedMetaValue .kSets mv then
        .error (.invalidArgument (wrongTypeMsg k mv.dataType))
      else do
        match ← gatherInter now db rest with
        | none => .ok none
        | some tail => .ok (some ((k, mv.version) :: tail))

/-- `Redis::SDiff` (source lines 177-255): members of the first set present
in none of the other valid sets. -/
def SDiff (now : Nat) (db : DB) (keys : List String) : Status × List String :=
  match keys with
  | [] => (.corruption ("SDiff invalid parameter, no keys"), [])
  | k0 :: rest =>
    match gatherValid now db rest with
    | .error st => (st, [])
    | .ok valid =>
      match getMeta db k0 with
      | none => (.ok, [])
      | some mv =>
        if IsStale now mv then (.ok, [])
        else if ¬ ExpectedMetaValue .kSets mv then
          (.invalidArgument (wrongTypeMsg k0 mv.dataType), [])
        else
          let run := db.data k0 mv.version
          (.ok, run.filter
            (fun m => ¬ valid.any (fun kv => decide (m ∈ db.data kv.1 kv.2))))

/-- `Redis::SInter` (source lines 370-454): members of the first set present
in every other set; empty the moment any referenced set is absent or
stale. -/
def SInter (now : Nat) (db : DB) (keys : List String) : Status × List String :=
  match keys with
  | [] => (.corruption ("SInter invalid parameter, no keys"), [])
  | k0 :: rest =>
    match gatherInter now db rest with
    | .error st => (st, [])
    | .ok none => (.ok, [])
    | .ok (some valid) =>
      match getMeta db k0 with
      | none => (.ok, [])
      | some mv =>
        if IsStale now mv then (.ok, [])
        else if ¬ ExpectedMetaValue .kSets mv then
          (.invalidArgument (wrongTypeMsg k0 mv.dataType), [])
        else
          let run := db.data k0 mv.version
          (.ok, run.filter
            (fun m => valid.all (fun kv => decide (m ∈ db.data kv.1 kv.2))))

/-- `Redis::SUnion` (source lines 1021-1072): first-occurrence
deduplication of the concatenated runs of all valid sets. -/
def SUnion (now : Nat) (db : DB) (keys : List String) : Status × List String :=
  match keys with
  | [] => (.corruption ("SUnion invalid parameter, no keys"), [])
  | _ =>
    match gatherValid now db keys with
    | .error st => (st, [])
    | .ok valid => (.ok, dedupFirst (valid.flatMap (fun kv => db.data kv.1 kv.2)))

/-- The fresh-destination branch of `SUnionstore` (source lines 1143-1149):
a fresh meta (no overflow guard) written under the encoded destination
key. -/
def SUnionstoreFresh (clock : Nat) (db : DB) (dst : String)
    (members : List String) : Status × Int × DB :=
  let v := UpdateVersion clock 0
  let mv : SetsMetaValue :=
    { dataType := .kSets, count := toInt32 members.length, version := v, etime := 0 }
  let db1 := putMeta db dst mv
  let db2 := putMembers db1 dst v members
  (.ok, toInt32 members.length, db2)

/-- `Redis::SUnionstore` (source lines 1075-1160).  When the destination
meta exists with the Set tag (stale or not), its version is advanced and the
updated meta is put under the raw destination bytes — source line 1142 puts
`destination`, not `base_destination.Encode()` — while the member records go
under the (encoded-key-indexed) run of the destination. -/
def SUnionstore (now clock : Nat) (db : DB) (dst : String) (keys : List String) :
    Status × Int × DB :=
  match keys with
  | [] => (.corruption ("SUnionstore invalid parameter, no keys"), 0, db)
  | _ =>
    match gatherValid now db keys with
    | .error st => (st, 0, db)
    | .ok valid =>
      let members := dedupFirst (valid.flatMap (fun kv => db.data kv.1 kv.2))
      match getMeta db dst with
      | some mv =>
        if ExpectedMetaValue .kSets mv then
          let p := InitialMetaValue clock mv
          if ¬ check_set_count (toInt32 members.length) then
            (.invalidArgument ("set size overflow"), 0, db)
          else
            let mv2 := { p.2 with count := toInt32 members.length }
            let db1 := putMetaRaw db dst mv2
            let db2 := putMembers db1 dst p.1 members
            (.ok, toInt32 members.length, db2)
        else SUnionstoreFresh clock db dst members
      | none => SUnionstoreFresh clock db dst members

/-- The fresh-destination branch of `SMove` (source lines 784-792): a fresh
Set meta with count 1 and a fresh version, plus the single member. -/
def SMoveDstFresh (clock : Nat) (db : DB) (stage1 : DB → DB)
    (dst member : String) : Status × Int × DB :=
  let v := UpdateVersion clock 0
  let mv : SetsMetaValue := { dataType := .kSets, count := 1, version := v, etime := 0 }
  (.ok, 1, putMember (putMeta (stage1 db) dst mv) dst v member)

/-- The destination phase of `SMove` (source lines 746-798).  All point
reads go against the pre-batch store `db`; `stage1` holds the staged source
mutations and is applied (in batch order, before the destination puts) only
on the commit paths. -/
def SMoveDst (now clock : Nat) (db : DB) (stage1 : DB → DB)
    (dst member : String) : Status × Int × DB :=
  match getMeta db dst with
  | none => SMoveDstFresh clock db stage1 dst member
  | some mvd =>
    if ¬ ExpectedMetaValue .kSets mvd then
      if IsStale now mvd then SMoveDstFresh clock db stage1 dst member
      else (.invalidArgument (wrongTypeMsgMove dst mvd.dataType), 1, db)
    else if IsStale now mvd ∨ mvd.count = 0 then
      let p := InitialMetaValue clock mvd
      let mvd2 := { p.2 with count := 1 }
      (.ok, 1, putMember (putMeta (stage1 db) dst mvd2) dst p.1 member)
    else
      let vd := mvd.version
      if member ∈ db.data dst vd then (.ok, 1, stage1 db)
      else if ¬ CheckModifyCount mvd.count 1 then
        (.invalidArgument ("set size overflow"), 1, db)
      else
        let mvd2 := { mvd with count := mvd.count + 1 }
        (.ok, 1, putMember (putMeta (stage1 db) dst mvd2) dst vd member)

/-- `Redis::SMove` (source lines 692-799).  The early return for
`source == destination` is commented out in the source, so aliased keys run
through the normal two-phase path with all point reads against the pre-batch
store. -/
def SMove (now clock : Nat) (db : DB) (src dst member : String) :
    Status × Int × DB :=
  match getMeta db src with
  | none => (.notFound, 0, db)
  | some mvs =>
    if IsStale now mvs then (.notFound, 0, db)
    else if ¬ ExpectedMetaValue .kSets mvs then
      (.invalidArgument (wrongTypeMsg src mvs.dataType), 0, db)
    else
      let vs := mvs.version
      if member ∉ db.data src vs then (.notFound, 0, db)
      else if ¬ CheckModifyCount mvs.count (-1) then
        (.invalidArgument ("set size overflow"), 1, db)
      else
        let stage1 : DB → DB := fun d =>
          delMember (putMeta d src { mvs with count := mvs.count - 1 }) src vs member
        SMoveDst now clock db stage1 dst member

/-- `Redis::SPop` (source lines 801-884).  The destroy-all regime is taken
when the stored count is strictly below the requested `cnt`: it deletes the
iterated member records and the meta record itself.  Otherwise `cnt`
distinct positions are drawn (`rng`, bounded by `fuel`), the members at the
drawn positions (bounded by the stored count, at most `cnt` of them) are
deleted and collected, and the meta count is decremented by `cnt`. -/
def SPop (now : Nat) (rng : Nat → Nat) (fuel : Nat) (db : DB) (key : String)
    (cnt : Int) : Except RandErr (Status × List String × DB) :=
  match getMeta db key with
  | none => .ok (.notFound, [], db)
  | some mv =>
    if IsStale now mv then .ok (.notFound, [], db)
    else if ¬ ExpectedMetaValue .kSets mv then
      .ok (.invalidArgument (wrongTypeMsg key mv.dataType), [], db)
    else
      let size := mv.count
      let v := mv.version
      let run := db.data key v
      if size < cnt then
        let popped := run.take size.toNat
        let db1 := setRun db key v (run.drop popped.length)
        .ok (.ok, popped, delMeta db1 key)
      else do
        let idxs ← drawDistinct rng 0 fuel size.toNat cnt.toNat []
        let picked :=
          (((run.take size.toNat).enum.filter (fun p => p.1 ∈ idxs)).take cnt.toNat).map
            (fun p => p.2)
        if ¬ CheckModifyCount mv.count (-cnt) then
          .ok (.invalidArgument ("set size overflow"), picked, db)
        else
          let db1 := setRun db key v (run.filter (fun m => decide (m ∉ picked)))
          let db2 := putMeta db1 key { mv with count := mv.count - cnt }
          .ok (.ok, picked, db2)

/-- `Redis::SRandmember` (source lines 896-966).  Positive counts draw that
many distinct positions (capped at the stored count), negative counts draw
`|count|` positions with repetition; positions are sorted, collected by one
bounded walk of the run, and the collected members are finally passed
through `std::shuffle`, modelled by the explicit `shuffle` argument.  A
stored count of zero with a negative request reaches `engine() % 0`. -/
def SRandmember (now : Nat) (rng : Nat → Nat) (fuel : Nat)
    (shuffle : List String → List String) (db : DB) (key : String)
    (count : Int) : Except RandErr (Status × List String) :=
  if count = 0 then .ok (.ok, [])
  else match getMeta db key with
  | none => .ok (.notFound, [])
  | some mv =>
    if IsStale now mv then .ok (.notFound, [])
    else if ¬ ExpectedMetaValue .kSets mv then
      .ok (.invalidArgument (wrongTypeMsg key mv.dataType), [])
    else
      let size := mv.count
      let run := db.data key mv.version
      do
        let targets ←
          if 0 < count then
            drawDistinct rng 0 fuel size.toNat (min count size).toNat []
          else drawDup rng (-count).toNat size.toNat
        let sorted := List.insertionSort (· ≤ ·) targets
        let collected := collectAll ((run.take size.toNat).enum) sorted
        .ok (.ok, shuffle collected)

/-- `Redis::SScan` (source lines 1162-1236).  A negative cursor returns OK
with no members and next cursor 0 before anything is read.  Otherwise the
start point comes from the scan-cursor store (reset to 0 / the tail-wildcard
literal when absent), up to `count` entries of the run from the start point
are walked while they carry the tail-wildcard literal prefix, matching
members are collected, and a resume point is stored iff the walk stopped
with entries remaining. -/
def SScan (now : Nat) (db : DB) (key : String) (cursor : Int) (pat : String)
    (count : Int) : Status × List String × Int × DB :=
  if cursor < 0 then (.ok, [], 0, db)
  else match getMeta db key with
  | none => (.notFound, [], 0, db)
  | some mv =>
    if IsStale now mv then (.notFound, [], 0, db)
    else if ¬ ExpectedMetaValue .kSets mv then
      (.invalidArgument (wrongTypeMsg key mv.dataType), [], 0, db)
    else
      let tail := isTailWildcard pat
      let p := match db.scan key pat cursor with
        | some sp => (sp, cursor)
        | none => (if tail then dropLastChar pat else (""), 0)
      let startPoint := p.1
      let cursor1 := p.2
      let subMember := if tail then dropLastChar pat else ("")
      let run := db.data key mv.version
      let afterSeek := run.dropWhile (fun m => strLt m startPoint)
      let walked := (afterSeek.takeWhile (fun m => strStartsWith m subMember)).take count.toNat
      let found := walked.filter (fun m => StringMatch pat m)
      let remaining := afterSeek.drop walked.length
      match remaining with
      | [] => (.ok, found, 0, db)
      | m :: _ =>
        if strStartsWith m subMember ∨ ¬ strLt subMember m then
          let nc := cursor1 + count
          (.ok, found, nc, setScan db key pat nc m)
        else (.ok, found, 0, db)

/-- `Redis::SetsRename` (source lines 1238-1265), with source and
destination instance identified.  The source meta value is copied verbatim
under the encoded new key, then the source meta is logically deleted in
place via `InitialMetaValue`; the member records are not touched and keep
embedding the old user-key bytes. -/
def SetsRename (now clock : Nat) (db : DB) (key newkey : String) :
    Status × DB :=
  match getMeta db key with
  | none => (.notFound, db)
  | some mv =>
    if IsStale now mv then (.notFound, db)
    else if mv.count = 0 then (.notFound, db)
    else
      let db1 := putMeta db newkey mv
      let db2 := putMeta db1 key (InitialMetaValue clock mv).2
      (.ok, db2)

end Redis

/-- The member run a multi-set read operation effectively sees for one key:
empty when the meta record is absent, stale, or (for the purposes of the
gathered key lists, where such keys raise WRONGTYPE before any run is read)
not a Set; otherwise the run of the current version. -/
def effRun (now : Nat) (db : DB) (k : String) : List String :=
  match getMeta db k with
  | none => []
  | some mv =>
    if IsStale now mv then []
    else if ¬ ExpectedMetaValue .kSets mv then []
    else db.data k mv.version

/-- A key is acceptable to the multi-set reads iff its meta record is
absent, stale, or carries the Set tag (a live non-Set meta raises
WRONGTYPE). -/
def keyOkB (now : Nat) (db : DB) (k : String) : Bool :=
  match getMeta db k with
  | none => true
  | some mv => IsStale now mv || ExpectedMetaValue .kSets mv

/-- A store holding exactly one freshly created singleton Set. -/
def singletonStore (clock : Nat) (k m : String) : DB :=
  (Redis.SAdd clock clock emptyDB k [m]).2.2

/-- The store of spec scenario test 3: `s1 = {a,b,c,d}`, `s2 = {c,d,e}`. -/
def scenarioStore : DB :=
  (Redis.SAdd 1 1 (Redis.SAdd 1 1 emptyDB "s1" ["a", "b", "c", "d"]).2.2
    "s2" ["c", "d", "e"]).2.2

/-- A store reached by `SAdd k {x}` under an existing destination Set
`{d} = {x0}`: first `SAdd d [x0]`, then `SAdd a [m]`. -/
def twoKeyStore : DB :=
  (Redis.SAdd 20 20 (Redis.SAdd 10 10 emptyDB "d" ["x0"]).2.2 "a" ["m"]).2.2

/-- A store reached by `SAdd k [a, b]` followed by `SRem k [a, a]` (the
member `a` requested twice in one SRem call). -/
def dupRemStore : DB :=
  (Redis.SRem 5 (Redis.SAdd 5 5 emptyDB "k" ["a", "b"]).2.2 "k" ["a", "a"]).2.2

/-- A store reached by `SAdd k [a]` followed by `SRem k [a]`: the meta
record survives with count 0 (and no expiration), the run is empty. -/
def drainedStore : DB :=
  (Redis.SRem 5 (Redis.SAdd 5 5 emptyDB "k" ["a"]).2.2 "k" ["a"]).2.2

/-- A store reached by `SAdd k [a, b, c]`. -/
def tripleStore : DB :=
  (Redis.SAdd 1 1 emptyDB "k" ["a", "b", "c"]).2.2

/-- A store whose meta for `k` is an empty (count-0) Set slot at version 4
while a leftover member record `ghost` still sits in the version-4 run. -/
def ghostStore : DB where
  meta := fun x => if x = baseMetaKey "k" then some ⟨.kSets, 0, 4, 0⟩ else none
  data := fun k v => if k = "k" ∧ v = 4 then ["ghost"] else []
  scan := fun _ _ _ => none

/-- 2^31 pairwise distinct member strings (the i-th member is the letter
`a` repeated i times). -/
def bigMembers : List String :=
  (List.range (2 ^ 31)).map (fun i => String.mk (List.replicate i ('a')))

theorem mem_dedupAux {x : String} :
    ∀ {l seen : List String}, x ∈ dedupAux l seen ↔ x ∈ l ∧ x ∉ seen := by
  intro l
  induction l with
  | nil => intro seen; simp [dedupAux]
  | cons y ys ih =>
    intro seen
    simp only [dedupAux]
    by_cases hy : y ∈ seen
    · rw [if_pos hy, ih]
      simp only [List.mem_cons]
      constructor
      · rintro ⟨h1, h2⟩; exact ⟨Or.inr h1, h2⟩
      · rintro ⟨rfl | h1, h2⟩
        · exact absurd hy h2
        · exact ⟨h1, h2⟩
    · rw [if_neg hy]
      simp only [List.mem_cons, ih, not_or]
      constructor
      · rintro (rfl | ⟨h1, h2, h3⟩)
        · exact ⟨Or.inl rfl, hy⟩
        · exact ⟨Or.inr h1, h3⟩
      · rintro ⟨rfl | h1, h2⟩
        · exact Or.inl rfl
        · by_cases hxy : x = y
          · exact Or.inl hxy
          · exact Or.inr ⟨h1, hxy, h2⟩

theorem mem_dedupFirst {x : String} {l : List String} :
    x ∈ dedupFirst l ↔ x ∈ l := by
  simp [dedupFirst, mem_dedupAux]

theorem dedupAux_eq_self :
    ∀ {l seen : List String}, l.Nodup → (∀ x ∈ l, x ∉ seen) → dedupAux l seen = l := by
  intro l
  induction l with
  | nil => intro seen _ _; rfl
  | cons y ys ih =>
    intro seen hnd hout
    have hy : y ∉ seen := hout y (List.mem_cons_self _ _)
    simp only [dedupAux, if_neg hy]
    have hnd' := (List.nodup_cons.mp hnd)
    refine congrArg _ (ih hnd'.2 ?_)
    intro x hx
    simp only [List.mem_cons, not_or]
    exact ⟨fun h => hnd'.1 (h ▸ hx), hout x (List.mem_cons_of_mem _ hx)⟩

theorem dedupFirst_eq_self {l : List String} (h : l.Nodup) : dedupFirst l = l :=
  dedupAux_eq_self h (by simp)

theorem mem_insertRun {m x : String} :
    ∀ {l : List String}, x ∈ insertRun m l ↔ x = m ∨ x ∈ l := by
  intro l
  induction l with
  | nil => simp [insertRun]
  | cons y ys ih =>
    simp only [insertRun]
    split
    · next h => subst h; simp only [List.mem_cons]; try tauto
    · split
      · simp only [List.mem_cons]; try tauto
      · simp only [List.mem_cons, ih]; try tauto

theorem mem_putRunMember {run : List String} {m x : String} :
    x ∈ putRunMember run m ↔ x = m ∨ x ∈ run := by
  unfold putRunMember
  by_cases h : m ∈ run
  · simp only [if_pos h]
    constructor
    · exact Or.inr
    · rintro (rfl | hx)
      · exact h
      · exact hx
  · simp [if_neg h, mem_insertRun]

theorem mem_foldl_putRunMember {x : String} :
    ∀ {ms run : List String}, x ∈ ms.foldl putRunMember run ↔ x ∈ ms ∨ x ∈ run := by
  intro ms
  induction ms with
  | nil => simp
  | cons y ys ih =>
    intro run
    simp only [List.foldl_cons, ih, mem_putRunMember, List.mem_cons]
    tauto

theorem putMembers_meta :
    ∀ {ms : List String} {db : DB} {k : String} {v : Nat},
      (putMembers db k v ms).meta = db.meta := by
  intro ms
  induction ms with
  | nil => intro db k v; rfl
  | cons m rest ih =>
    intro db k v
    show (putMembers (putMember db k v m) k v rest).meta = db.meta
    rw [ih]
    rfl

theorem data_putMembers :
    ∀ {ms : List String} {db : DB} {k : String} {v : Nat} {x : String} {u : Nat},
      (putMembers db k v ms).data x u =
        if x = k ∧ u = v then ms.foldl putRunMember (db.data k v) else db.data x u := by
  intro ms
  induction ms with
  | nil =>
    intro db k v x u
    by_cases h : x = k ∧ u = v
    · obtain ⟨rfl, rfl⟩ := h
      simp [putMembers]
    · simp [putMembers, if_neg h]
  | cons m rest ih =>
    intro db k v x u
    show (putMembers (putMember db k v m) k v rest).data x u = _
    rw [ih]
    by_cases h : x = k ∧ u = v
    · obtain ⟨rfl, rfl⟩ := h
      simp [putMember, setRun]
    · simp only [if_neg h]
      simp only [putMember, setRun]
      rw [if_neg h]

theorem getMeta_putMeta_self {db : DB} {k : String} {mv : SetsMetaValue} :
    getMeta (putMeta db k mv) k = some mv := by
  simp [getMeta, putMeta, putMetaRaw]

theorem getMeta_putMembers {db : DB} {k k2 : String} {v : Nat} {ms : List String} :
    getMeta (putMembers db k v ms) k2 = getMeta db k2 := by
  simp [getMeta, putMembers_meta]

theorem getMeta_delMeta_self {db : DB} {k : String} :
    getMeta (delMeta db k) k = none := by
  simp [getMeta, delMeta]

theorem data_setRun_self {db : DB} {k : String} {v : Nat} {run : List String} :
    (setRun db k v run).data k v = run := by
  simp [setRun]

theorem data_setRun_ne {db : DB} {k x : String} {v u : Nat} {run : List String}
    (h : ¬ (x = k ∧ u = v)) : (setRun db k v run).data x u = db.data x u := by
  simp only [setRun]
  rw [if_neg h]

theorem data_putMeta {db : DB} {k x : String} {mv : SetsMetaValue} {u : Nat} :
    (putMeta db k mv).data x u = db.data x u := rfl

theorem data_delMeta {db : DB} {k x : String} {u : Nat} :
    (delMeta db k).data x u = db.data x u := rfl

theorem mem_collectTargets {x : String} :
    ∀ {fuel : Nat} {en : List (Nat × String)} {ts : List Nat},
      x ∈ collectTargets fuel en ts → x ∈ en.map (fun p => p.2) := by
  intro fuel
  induction fuel with
  | zero => intro en ts h; simp [collectTargets] at h
  | succ f ih =>
    intro en ts h
    match en, ts with
    | _, [] => simp [collectTargets] at h
    | [], _ :: _ => simp [collectTargets] at h
    | (i, m) :: en2, t :: ts2 =>
      simp only [collectTargets] at h
      by_cases he : t = i
      · rw [if_pos he] at h
        rcases List.mem_cons.mp h with rfl | h2
        · simp
        · exact ih h2
      · rw [if_neg he] at h
        have := ih h
        simp only [List.map_cons, List.mem_cons]
        exact Or.inr this

theorem drawDistinct_ok {rng : Nat → Nat} :
    ∀ {fuel i modnum need : Nat} {acc res : List Nat},
      acc.Nodup → (∀ x ∈ acc, x < modnum) →
      drawDistinct rng i fuel modnum need acc = .ok res →
      res.Nodup ∧ (∀ x ∈ res, x < modnum) ∧ res.length = need := by
  intro fuel
  induction fuel with
  | zero =>
    intro i modnum need acc res hnd hb h
    simp only [drawDistinct] at h
    split at h
    · next hl =>
      cases h
      refine ⟨List.nodup_reverse.mpr hnd, ?_, by simpa using hl⟩
      intro x hx
      exact hb x (List.mem_reverse.mp hx)
    · cases h
  | succ f ih =>
    intro i modnum need acc res hnd hb h
    simp only [drawDistinct] at h
    split at h
    · next hl =>
      cases h
      refine ⟨List.nodup_reverse.mpr hnd, ?_, by simpa using hl⟩
      intro x hx
      exact hb x (List.mem_reverse.mp hx)
    · next hl =>
      split at h
      · cases h
      · next hm =>
        split at h
        · exact ih hnd hb h
        · next hnew =>
          refine ih ?_ ?_ h
          · exact List.nodup_cons.mpr ⟨hnew, hnd⟩
          · intro x hx
            rcases List.mem_cons.mp hx with rfl | h2
            · exact Nat.mod_lt _ (Nat.pos_of_ne_zero hm)
            · exact hb x h2

theorem length_filter_mem_enum {l : List String} {idxs : List Nat}
    (hn : idxs.Nodup) (hb : ∀ i ∈ idxs, i < l.length) :
    (l.enum.filter (fun p => decide (p.1 ∈ idxs))).length = idxs.length := by
  rw [← List.countP_eq_length_filter]
  have h1 : List.countP (fun p => decide (p.1 ∈ idxs)) l.enum =
      List.countP (fun i => decide (i ∈ idxs)) (l.enum.map Prod.fst) := by
    rw [List.countP_map]
    rfl
  rw [h1, List.enum_map_fst, List.countP_eq_length_filter]
  have h2 : (List.filter (fun i => decide (i ∈ idxs)) (List.range l.length)).Perm idxs := by
    rw [List.perm_ext_iff_of_nodup (List.Nodup.filter _ (List.nodup_range _)) hn]
    intro a
    simp only [List.mem_filter, List.mem_range, decide_eq_true_eq]
    exact ⟨fun h => h.2, fun h => ⟨hb a h, h⟩⟩
  exact h2.length_eq

/-- Claim C1: the claim states that after a successful SUnionstore(dst,
keys), SMembers(dst) equals SUnion(keys) on the pre-operation store, also
when dst previously existed as a Set meta.  The code violates this when dst
exists as a Set: the updated meta is put under the raw destination bytes
(source line 1142) instead of the encoded meta key, so the pre-existing meta
(old version, old members) is what SMembers(dst) still reads.  Here
SUnion([a]) = [m] but SMembers(d) after SUnionstore(d,[a]) is still [x0]. -/
theorem claim_C1_sunionstore_raw_meta_put :
    (Redis.SUnionstore 0 0 twoKeyStore "d" ["a"]).1 = .ok ∧
    (Redis.SUnionstore 0 0 twoKeyStore "d" ["a"]).2.1 = 1 ∧
    (Redis.SUnion 0 twoKeyStore ["a"]).2 = ["m"] ∧
    (Redis.SMembers 0 (Redis.SUnionstore 0 0 twoKeyStore "d" ["a"]).2.2 "d").2 = ["x0"] ∧
    (Redis.SMembers 0 (Redis.SUnionstore 0 0 twoKeyStore "d" ["a"]).2.2 "d").2 ≠
      (Redis.SUnion 0 twoKeyStore ["a"]).2 := by
  decide

/-- Claim C2: the claim states SCard = |SMembers| after any SAdd/SRem
sequence from the empty store, including member lists with repeats.  The
code violates it: SRem point reads each requested member against the
pre-batch store, so `SRem k [a, a]` after `SAdd k [a, b]` counts the
duplicate twice and decrements the count by 2 while only one record is
deleted — SCard then reports 0 though SMembers still returns [b]. -/
theorem claim_C2_srem_duplicate_overcount :
    (Redis.SCard 5 dupRemStore "k").2 = 0 ∧
    (Redis.SMembers 5 dupRemStore "k").2 = ["b"] ∧
    (Redis.SCard 5 dupRemStore "k").2 ≠ ((Redis.SMembers 5 dupRemStore "k").2.length : Int) := by
  decide

/-- Claim C4: the claim states SMove(k, k, m) is a pure membership test
leaving the set unchanged.  The code violates it (the aliasing early return
is commented out, source lines 703-706): with m present, the source phase
stages the deletion and the count decrement, the destination phase point
reads the pre-batch store, finds m still there and stages nothing, so the
commit removes m — SMove(k, k, m) on {m} returns 1 but leaves k empty. -/
theorem claim_C4_smove_aliased_mutation :
    (Redis.SIsmember 7 (singletonStore 7 "k" "m") "k" "m").2 = 1 ∧
    (Redis.SMove 7 7 (singletonStore 7 "k" "m") "k" "k" "m").1 = .ok ∧
    (Redis.SMove 7 7 (singletonStore 7 "k" "m") "k" "k" "m").2.1 = 1 ∧
    (Redis.SIsmember 7 (Redis.SMove 7 7 (singletonStore 7 "k" "m") "k" "k" "m").2.2 "k" "m").2 = 0 ∧
    getMeta (Redis.SMove 7 7 (singletonStore 7 "k" "m") "k" "k" "m").2.2 "k" =
      some ⟨.kSets, 0, 7, 0⟩ := by
  decide

/-- Claim C5: the claim states that after SetsRename(key, newkey) the set
reachable under newkey owns the original member records and SMembers(newkey)
returns the pre-rename members.  The code violates it: only the meta value
is copied under the new key, while every member record still embeds the old
user-key bytes, so SMembers(newkey) iterates an empty prefix — here the old
set {m} is gone from "a" (SCard NotFound), the copied meta under "b" reports
count 1, yet SMembers(b) is empty. -/
theorem claim_C5_rename_unreachable_members :
    (Redis.SMembers 3 (singletonStore 3 "a" "m") "a").2 = ["m"] ∧
    (Redis.SetsRename 3 9 (singletonStore 3 "a" "m") "a" "b").1 = .ok ∧
    (Redis.SCard 3 (Redis.SetsRename 3 9 (singletonStore 3 "a" "m") "a" "b").2 "a").1 = .notFound ∧
    (Redis.SCard 3 (Redis.SetsRename 3 9 (singletonStore 3 "a" "m") "a" "b").2 "b").2 = 1 ∧
    (Redis.SMembers 3 (Redis.SetsRename 3 9 (singletonStore 3 "a" "m") "a" "b").2 "b").2 = [] := by
  decide

/-- Claim C9: the claim states every modulo drawn by SRandmember divides by
a nonzero stored count in every reachable state.  The code violates it: a
count-0 meta record (left behind by SRem removing the last member) passes
the staleness and type checks — the count-0 case is not treated as absent on
this read path — and a negative request then evaluates `engine() % size`
with size = 0: undefined behaviour, surfaced as `divByZero` in the model. -/
theorem claim_C9_srandmember_mod_zero :
    getMeta drainedStore "k" = some ⟨.kSets, 0, 5, 0⟩ ∧
    Redis.SRandmember 5 (fun i => i) 10 id drainedStore "k" (-1) = .error .divByZero := by
  decide

/-- Claim C10: SScan called with a negative cursor returns OK, no members
and next cursor 0, for every store state, without reading the store or the
scan-cursor store (the store comes back unchanged). -/
theorem claim_C10_sscan_negative_cursor (now : Nat) (db : DB) (key pat : String)
    (count cursor : Int) (h : cursor < 0) :
    Redis.SScan now db key cursor pat count = (.ok, [], 0, db) := by
  unfold Redis.SScan
  rw [if_pos h]

/-- Witness for C10 at a concrete store and cursor. -/
theorem claim_C10_sscan_negative_cursor_witness :
    (-3 : Int) < 0 ∧ Redis.SScan 7 tripleStore "k" (-3) ("a*") 5 = (.ok, [], 0, tripleStore) :=
  ⟨by decide, claim_C10_sscan_negative_cursor 7 tripleStore "k" ("a*") 5 (-3) (by decide)⟩

/-- Counterexample to claim C3 as stated: at the boundary count = n the
destroy regime is not taken (the source tests `length < cnt`, strictly).
SPop(k, 1) on the one-member set {a} returns all members, yet the meta
record is put back with count 0 rather than deleted. -/
theorem claim_C3_counterexample_boundary :
    (getMeta (singletonStore 3 "k" "a") "k").map (fun mv => mv.count) = some 1 ∧
    (Redis.SPop 3 (fun _ => 0) 5 (singletonStore 3 "k" "a") "k" 1).map
        (fun r => (r.1, r.2.1, getMeta r.2.2 "k")) =
      .ok (.ok, ["a"], some ⟨.kSets, 0, 3, 0⟩) := by
  decide

/-- Claim C8: the claim states every mutating operation whose resulting
cardinality would leave the i32 range fails with InvalidArgument
`set size overflow` and leaves the store unchanged.  The code violates this
on the fresh-meta path of SAdd (source lines 135-146): the count is stored
through `EncodeFixed32` with no overflow guard, so inserting 2^31 distinct
members into an absent key succeeds, commits every record and stores the
count wrapped to -(2^31). -/
theorem SAddFresh_status (clock : Nat) (db : DB) (key : String) (f : List String) :
    (Redis.SAddFresh clock db key f).1 = .ok := rfl

theorem SAddFresh_ret (clock : Nat) (db : DB) (key : String) (f : List String) :
    (Redis.SAddFresh clock db key f).2.1 = toInt32 f.length := rfl

theorem getMeta_SAddFresh (clock : Nat) (db : DB) (key : String) (f : List String) :
    getMeta (Redis.SAddFresh clock db key f).2.2 key =
      some ⟨.kSets, toInt32 f.length, UpdateVersion clock 0, 0⟩ := by
  show getMeta (putMembers (putMeta db key _) key _ f) key = _
  rw [getMeta_putMembers, getMeta_putMeta_self]

theorem claim_C8_fresh_sadd_overflow_unchecked :
    maxInt32 < ((dedupFirst bigMembers).length : Int) ∧
    (Redis.SAdd 0 0 emptyDB "kk" bigMembers).1 = .ok ∧
    (Redis.SAdd 0 0 emptyDB "kk" bigMembers).1 ≠ .invalidArgument ("set size overflow") ∧
    getMeta (Redis.SAdd 0 0 emptyDB "kk" bigMembers).2.2 "kk" =
      some ⟨.kSets, -(2 ^ 31), 1, 0⟩ := by
  have hinj : Function.Injective (fun i => String.mk (List.replicate i ('a'))) := by
    intro a b h
    have h2 := congrArg String.data h
    simpa using h2
  have hnodup : bigMembers.Nodup := List.Nodup.map hinj (List.nodup_range _)
  have hdedup : dedupFirst bigMembers = bigMembers := dedupFirst_eq_self hnodup
  have hlen : bigMembers.length = 2 ^ 31 := by simp [bigMembers]
  have hsadd : Redis.SAdd 0 0 emptyDB "kk" bigMembers =
      Redis.SAddFresh 0 emptyDB "kk" (dedupFirst bigMembers) := rfl
  have hst : (Redis.SAdd 0 0 emptyDB "kk" bigMembers).1 = .ok := by
    rw [hsadd, SAddFresh_status]
  have hti : toInt32 (2 ^ 31) = -(2 ^ 31) := by
    simp only [toInt32]
    norm_num
  refine ⟨?_, hst, ?_, ?_⟩
  · rw [hdedup, hlen]
    norm_num [maxInt32]
  · rw [hst]
    decide
  · rw [hsadd, getMeta_SAddFresh, hdedup, hlen, hti]
    rfl

theorem keyOk_cases {now : Nat} {db : DB} {k : String} (h : keyOkB now db k = true) :
    getMeta db k = none ∨
    (∃ mv, getMeta db k = some mv ∧ IsStale now mv = true) ∨
    (∃ mv, getMeta db k = some mv ∧ IsStale now mv = false ∧
      ExpectedMetaValue .kSets mv = true) := by
  unfold keyOkB at h
  rcases hg : getMeta db k with _ | mv
  · exact Or.inl rfl
  · rw [hg] at h
    have h2 : (IsStale now mv || ExpectedMetaValue .kSets mv) = true := h
    rcases hs : IsStale now mv with _ | _
    · rw [hs, Bool.false_or] at h2
      exact Or.inr (Or.inr ⟨mv, rfl, hs, h2⟩)
    · exact Or.inr (Or.inl ⟨mv, rfl, hs⟩)

theorem effRun_none {now : Nat} {db : DB} {k : String} (hg : getMeta db k = none) :
    effRun now db k = [] := by
  simp [effRun, hg]

theorem effRun_stale {now : Nat} {db : DB} {k : String} {mv : SetsMetaValue}
    (hg : getMeta db k = some mv) (hs : IsStale now mv = true) :
    effRun now db k = [] := by
  simp [effRun, hg, hs]

theorem effRun_live {now : Nat} {db : DB} {k : String} {mv : SetsMetaValue}
    (hg : getMeta db k = some mv) (hs : IsStale now mv = false)
    (ht : ExpectedMetaValue .kSets mv = true) :
    effRun now db k = db.data k mv.version := by
  simp [effRun, hg, hs, ht]

theorem gatherValid_ok {now : Nat} {db : DB} :
    ∀ {keys : List String}, (∀ k ∈ keys, keyOkB now db k = true) →
      ∃ l, Redis.gatherValid now db keys = .ok l ∧
        (∀ m, m ∈ l.flatMap (fun kv => db.data kv.1 kv.2) ↔
          ∃ k ∈ keys, m ∈ effRun now db k) := by
  intro keys
  induction keys with
  | nil => intro _; exact ⟨[], rfl, by simp⟩
  | cons k rest ih =>
    intro h
    have hk := h k (List.mem_cons_self _ _)
    have hrest : ∀ k2 ∈ rest, keyOkB now db k2 = true :=
      fun k2 hk2 => h k2 (List.mem_cons_of_mem _ hk2)
    obtain ⟨l, hl, hm⟩ := ih hrest
    rcases keyOk_cases hk with hg | ⟨mv, hg, hs⟩ | ⟨mv, hg, hs, ht⟩
    · refine ⟨l, ?_, ?_⟩
      · simp only [Redis.gatherValid, hg, hl]
      · intro m
        rw [hm]
        simp [effRun_none hg]
    · refine ⟨l, ?_, ?_⟩
      · simp only [Redis.gatherValid, hg, hs, if_true, hl]
      · intro m
        rw [hm]
        simp [effRun_stale hg hs]
    · refine ⟨(k, mv.version) :: l, ?_, ?_⟩
      · simp only [Redis.gatherValid, hg, hs, ht, if_false, Bool.not_true, hl]
        rfl
      · intro m
        simp only [List.flatMap_cons, List.mem_append, hm, List.mem_cons]
        constructor
        · rintro (h1 | ⟨k2, hk2, h2⟩)
          · exact ⟨k, Or.inl rfl, by rw [effRun_live hg hs ht]; exact h1⟩
          · exact ⟨k2, Or.inr hk2, h2⟩
        · rintro ⟨k2, rfl | hk2, h2⟩
          · rw [effRun_live hg hs ht] at h2
            exact Or.inl h2
          · exact Or.inr ⟨k2, hk2, h2⟩


theorem SUnion_pair {now : Nat} {db : DB} {a b : String}
    (ha : keyOkB now db a = true) (hb : keyOkB now db b = true) :
    (Redis.SUnion now db [a, b]).1 = .ok ∧
    (∀ m, m ∈ (Redis.SUnion now db [a, b]).2 ↔
      (m ∈ effRun now db a ∨ m ∈ effRun now db b)) := by
  have hkeys : ∀ k ∈ [a, b], keyOkB now db k = true := by
    intro k hk
    rcases List.mem_cons.mp hk with rfl | hk2
    · exact ha
    · rcases List.mem_cons.mp hk2 with rfl | hk3
      · exact hb
      · exact absurd hk3 (List.not_mem_nil _)
  obtain ⟨l, hl, hm⟩ := gatherValid_ok hkeys
  have hres : Redis.SUnion now db [a, b] =
      (.ok, dedupFirst (l.flatMap (fun kv => db.data kv.1 kv.2))) := by
    simp only [Redis.SUnion, hl]
  rw [hres]
  refine ⟨rfl, ?_⟩
  intro m
  simp only [mem_dedupFirst, hm m]
  constructor
  · rintro ⟨k, hk, h⟩
    rcases List.mem_cons.mp hk with rfl | hk2
    · exact Or.inl h
    · rcases List.mem_cons.mp hk2 with rfl | hk3
      · exact Or.inr h
      · exact absurd hk3 (List.not_mem_nil _)
  · rintro (h | h)
    · exact ⟨a, by simp, h⟩
    · exact ⟨b, by simp, h⟩

theorem SDiff_pair {now : Nat} {db : DB} {a b : String}
    (ha : keyOkB now db a = true) (hb : keyOkB now db b = true) :
    (Redis.SDiff now db [a, b]).1 = .ok ∧
    (∀ m, m ∈ (Redis.SDiff now db [a, b]).2 ↔
      (m ∈ effRun now db a ∧ m ∉ effRun now db b)) := by
  have hbs : ∀ k ∈ [b], keyOkB now db k = true := by
    intro k hk
    rcases List.mem_cons.mp hk with rfl | hk2
    · exact hb
    · exact absurd hk2 (List.not_mem_nil _)
  obtain ⟨l, hl, hm⟩ := gatherValid_ok hbs
  have hany : ∀ m, (l.any (fun kv => decide (m ∈ db.data kv.1 kv.2)) = true) ↔
      m ∈ effRun now db b := by
    intro m
    rw [List.any_eq_true]
    constructor
    · rintro ⟨kv, hkv, hd⟩
      have h1 : m ∈ l.flatMap (fun kv => db.data kv.1 kv.2) :=
        List.mem_flatMap.mpr ⟨kv, hkv, of_decide_eq_true hd⟩
      rcases (hm m).mp h1 with ⟨k, hk, h⟩
      rcases List.mem_cons.mp hk with rfl | hk2
      · exact h
      · exact absurd hk2 (List.not_mem_nil _)
    · intro hmb
      have h1 : m ∈ l.flatMap (fun kv => db.data kv.1 kv.2) :=
        (hm m).mpr ⟨b, by simp, hmb⟩
      rcases List.mem_flatMap.mp h1 with ⟨kv, hkv, h2⟩
      exact ⟨kv, hkv, decide_eq_true h2⟩
  rcases keyOk_cases ha with hg | ⟨mv, hg, hs⟩ | ⟨mv, hg, hs, ht⟩
  · constructor
    · simp only [Redis.SDiff, hl, hg]
    · intro m
      simp only [Redis.SDiff, hl, hg]
      simp [show effRun now db a = [] from effRun_none hg]
  · constructor
    · simp only [Redis.SDiff, hl, hg, hs, if_true]
    · intro m
      simp only [Redis.SDiff, hl, hg, hs, if_true]
      simp [effRun_stale hg hs]
  · constructor
    · simp [Redis.SDiff, hl, hg, hs, ht]
    · intro m
      simp only [Redis.SDiff, hl, hg, hs, ht, Bool.false_eq_true, not_true, if_false,
        ite_false, not_false_iff, ite_true, List.mem_filter, decide_eq_true_eq]
      rw [hany m, effRun_live hg hs ht]

theorem gatherInter_single {now : Nat} {db : DB} {b : String}
    (hb : keyOkB now db b = true) :
    (Redis.gatherInter now db [b] = .ok none ∧ effRun now db b = []) ∨
    (∃ mv, getMeta db b = some mv ∧
      Redis.gatherInter now db [b] = .ok (some [(b, mv.version)]) ∧
      effRun now db b = db.data b mv.version) := by
  rcases keyOk_cases hb with hg | ⟨mv, hg, hs⟩ | ⟨mv, hg, hs, ht⟩
  · exact Or.inl ⟨by simp only [Redis.gatherInter, hg], effRun_none hg⟩
  · exact Or.inl ⟨by simp only [Redis.gatherInter, hg, hs, if_true], effRun_stale hg hs⟩
  · refine Or.inr ⟨mv, hg, ?_, effRun_live hg hs ht⟩
    simp only [Redis.gatherInter, hg, hs, ht]
    rfl

theorem SInter_pair {now : Nat} {db : DB} {a b : String}
    (ha : keyOkB now db a = true) (hb : keyOkB now db b = true) :
    (Redis.SInter now db [a, b]).1 = .ok ∧
    (∀ m, m ∈ (Redis.SInter now db [a, b]).2 ↔
      (m ∈ effRun now db a ∧ m ∈ effRun now db b)) := by
  rcases gatherInter_single hb with ⟨hgi, hEb⟩ | ⟨mv, hgB, hgi, hEb⟩
  · constructor
    · simp only [Redis.SInter, hgi]
    · intro m
      simp only [Redis.SInter, hgi]
      simp [hEb]
  · rcases keyOk_cases ha with hg | ⟨mva, hg, hs⟩ | ⟨mva, hg, hs, ht⟩
    · constructor
      · simp only [Redis.SInter, hgi, hg]
      · intro m
        simp only [Redis.SInter, hgi, hg]
        simp [show effRun now db a = [] from effRun_none hg]
    · constructor
      · simp only [Redis.SInter, hgi, hg, hs, if_true]
      · intro m
        simp only [Redis.SInter, hgi, hg, hs, if_true]
        simp [effRun_stale hg hs]
    · constructor
      · simp [Redis.SInter, hgi, hg, hs, ht]
      · intro m
        simp only [Redis.SInter, hgi, hg, hs, ht, Bool.false_eq_true, not_true, if_false,
          ite_false, not_false_iff, ite_true, List.mem_filter, decide_eq_true_eq]
        rw [effRun_live hg hs ht, hEb]
        simp

/-- Claim C6: for any two keys acceptable to the multi-set reads, the
members of SUnion([A,B]) are, as a set of distinct elements, the disjoint
union of SDiff([A,B]), SInter([A,B]) and SDiff([B,A]) evaluated on the same
store. -/
theorem claim_C6_union_partition (now : Nat) (db : DB) (a b : String)
    (ha : keyOkB now db a = true) (hb : keyOkB now db b = true) :
    (Redis.SUnion now db [a, b]).1 = .ok ∧
    (Redis.SDiff now db [a, b]).1 = .ok ∧
    (Redis.SInter now db [a, b]).1 = .ok ∧
    (Redis.SDiff now db [b, a]).1 = .ok ∧
    (Redis.SUnion now db [a, b]).2.toFinset =
      (Redis.SDiff now db [a, b]).2.toFinset ∪ (Redis.SInter now db [a, b]).2.toFinset ∪
        (Redis.SDiff now db [b, a]).2.toFinset ∧
    Disjoint ((Redis.SDiff now db [a, b]).2.toFinset) ((Redis.SInter now db [a, b]).2.toFinset) ∧
    Disjoint ((Redis.SDiff now db [a, b]).2.toFinset ∪ (Redis.SInter now db [a, b]).2.toFinset)
      ((Redis.SDiff now db [b, a]).2.toFinset) := by
  obtain ⟨hu1, hu2⟩ := SUnion_pair ha hb
  obtain ⟨hd1, hd2⟩ := SDiff_pair ha hb
  obtain ⟨hi1, hi2⟩ := SInter_pair ha hb
  obtain ⟨he1, he2⟩ := SDiff_pair hb ha
  refine ⟨hu1, hd1, hi1, he1, ?_, ?_, ?_⟩
  · ext m
    simp only [Finset.mem_union, List.mem_toFinset, hu2, hd2, hi2, he2]
    tauto
  · rw [Finset.disjoint_left]
    intro m h1 h2
    rw [List.mem_toFinset] at h1 h2
    rw [hd2] at h1
    rw [hi2] at h2
    exact h1.2 h2.2
  · rw [Finset.disjoint_left]
    intro m h1 h2
    simp only [Finset.mem_union, List.mem_toFinset] at h1
    rw [List.mem_toFinset, he2] at h2
    rcases h1 with h1 | h1
    · rw [hd2] at h1
      exact h2.2 h1.1
    · rw [hi2] at h1
      exact h2.2 h1.1

/-- Witness for C6 on the store of spec scenario 3. -/
theorem claim_C6_witness :
    keyOkB 2 scenarioStore "s1" = true ∧ keyOkB 2 scenarioStore "s2" = true ∧
    (Redis.SUnion 2 scenarioStore ["s1", "s2"]).2.toFinset =
      (Redis.SDiff 2 scenarioStore ["s1", "s2"]).2.toFinset ∪
        (Redis.SInter 2 scenarioStore ["s1", "s2"]).2.toFinset ∪
        (Redis.SDiff 2 scenarioStore ["s2", "s1"]).2.toFinset :=
  ⟨by decide, by decide,
    (claim_C6_union_partition 2 scenarioStore "s1" "s2" (by decide) (by decide)).2.2.2.2.1⟩

theorem toInt32_of_le {n : Nat} (h : (n : Int) ≤ maxInt32) : toInt32 n = n := by
  norm_num [maxInt32] at h
  have h31 : n < 2 ^ 31 := by
    have hp : (2 : Nat) ^ 31 = 2147483648 := by norm_num
    omega
  unfold toInt32
  rw [Nat.mod_eq_of_lt ?_, if_pos h31]
  have hp : (2 : Nat) ^ 32 = 4294967296 := by norm_num
  omega

theorem IsStale_zero_etime {now : Nat} {t : DataType} {c : Int} {v : Nat} :
    IsStale now ⟨t, c, v, 0⟩ = false := by
  simp [IsStale]

theorem lt_UpdateVersion (clock v : Nat) : v < UpdateVersion clock v :=
  Nat.lt_of_lt_of_le (Nat.lt_succ_self _) (Nat.le_max_right _ _)

theorem sadd_reuse_eq (now clock : Nat) (db : DB) (k : String) (ms : List String)
    (mv : SetsMetaValue)
    (hmeta : getMeta db k = some mv)
    (htype : mv.dataType = .kSets)
    (hstale : IsStale now mv = true ∨ mv.count = 0)
    (hsize : ((dedupFirst ms).length : Int) ≤ maxInt32) :
    Redis.SAdd now clock db k ms =
      (.ok, ((dedupFirst ms).length : Int),
        putMembers
          (putMeta db k ⟨mv.dataType, ((dedupFirst ms).length : Int),
            UpdateVersion clock mv.version, 0⟩)
          k (UpdateVersion clock mv.version) (dedupFirst ms)) := by
  have hexp : ExpectedMetaValue .kSets mv = true := by
    simp [ExpectedMetaValue, htype]
  have hti : toInt32 (dedupFirst ms).length = ((dedupFirst ms).length : Int) :=
    toInt32_of_le hsize
  have hcheck : check_set_count (((dedupFirst ms).length : Int)) = true := by
    simp only [check_set_count, decide_eq_true_eq]
    exact ⟨Int.natCast_nonneg _, hsize⟩
  simp only [Redis.SAdd, hmeta, hexp, Bool.not_true, if_false, if_pos hstale,
    InitialMetaValue, UpdateVersion, hti, hcheck, not_true, ite_false]

theorem mem_collectAll_run {x : String} {l : List String} {ts : List Nat}
    (h : x ∈ collectAll l.enum ts) : x ∈ l := by
  have h2 := mem_collectTargets h
  simpa [List.enum_map_snd] using h2

theorem SRandmember_subset {now : Nat} {rng : Nat → Nat} {fuel : Nat}
    {sh : List String → List String} {db : DB} {k : String} {c : Int}
    {st : Status} {out : List String} {mv : SetsMetaValue}
    (hsh : ∀ l x, x ∈ sh l → x ∈ l)
    (hmeta : getMeta db k = some mv)
    (heq : Redis.SRandmember now rng fuel sh db k c = .ok (st, out)) :
    ∀ m ∈ out, m ∈ db.data k mv.version := by
  intro m hm
  unfold Redis.SRandmember at heq
  by_cases hc : c = 0
  · rw [if_pos hc] at heq
    cases heq
    exact absurd hm (List.not_mem_nil m)
  · rw [if_neg hc] at heq
    split at heq
    · cases heq
      exact absurd hm (List.not_mem_nil m)
    · next mv2 hg2 =>
      have hmv2 : mv2 = mv := by
        rw [hmeta] at hg2
        exact (Option.some.injEq _ _ ▸ hg2).symm
      subst hmv2
      split at heq
      · cases heq
        exact absurd hm (List.not_mem_nil m)
      · split at heq
        · cases heq
          exact absurd hm (List.not_mem_nil m)
        · simp only [] at heq
          split at heq
          · cases hD : drawDistinct rng 0 fuel mv2.count.toNat (min c mv2.count).toNat [] with
            | error e =>
              rw [hD] at heq
              exact Except.noConfusion heq
            | ok targets =>
              rw [hD] at heq
              injection heq with h1
              injection h1 with h2 h3
              subst h3
              have h4 := hsh _ _ hm
              exact List.mem_of_mem_take (mem_collectAll_run h4)
          · cases hD : drawDup rng (-c).toNat mv2.count.toNat with
            | error e =>
              rw [hD] at heq
              exact Except.noConfusion heq
            | ok targets =>
              rw [hD] at heq
              injection heq with h1
              injection h1 with h2 h3
              subst h3
              have h4 := hsh _ _ hm
              exact List.mem_of_mem_take (mem_collectAll_run h4)

theorem mem_scan_chain {m : String} {l : List String} {p q r : String → Bool} {n : Nat}
    (h : m ∈ ((((l.dropWhile p).takeWhile q).take n).filter r)) : m ∈ l := by
  have h1 := List.mem_of_mem_filter h
  have h2 := List.mem_of_mem_take h1
  have h3 := (List.takeWhile_sublist q).subset h2
  exact (List.dropWhile_sublist p).subset h3

theorem SScan_subset {now : Nat} {db : DB} {k : String} {cursor : Int}
    {pat : String} {cnt : Int} {mv : SetsMetaValue}
    (hmeta : getMeta db k = some mv) :
    ∀ m ∈ (Redis.SScan now db k cursor pat cnt).2.1, m ∈ db.data k mv.version := by
  intro m hm
  unfold Redis.SScan at hm
  by_cases hc : cursor < 0
  · rw [if_pos hc] at hm
    exact absurd hm (List.not_mem_nil m)
  · rw [if_neg hc] at hm
    split at hm
    · exact absurd hm (List.not_mem_nil m)
    · next mv2 hg2 =>
      have hmv2 : mv2 = mv := by
        rw [hmeta] at hg2
        exact (Option.some.injEq _ _ ▸ hg2).symm
      subst hmv2
      split at hm
      · exact absurd hm (List.not_mem_nil m)
      · split at hm
        · exact absurd hm (List.not_mem_nil m)
        · simp only [] at hm
          repeat' split at hm
          all_goals exact mem_scan_chain hm


/-- Claim C7: reusing a stale or count-0 Set slot through SAdd strictly
increases the meta version, and afterwards no read operation (SMembers,
SIsmember, SRandmember, SScan) returns a member record written under any
prior version: the old-version records are still physically present but
every read result is drawn from the newly inserted members only. -/
theorem claim_C7_version_monotonic (now clock : Nat) (db : DB) (k : String)
    (ms : List String) (mv : SetsMetaValue)
    (hmeta : getMeta db k = some mv)
    (htype : mv.dataType = .kSets)
    (hstale : IsStale now mv = true ∨ mv.count = 0)
    (habove : ∀ u, mv.version < u → db.data k u = [])
    (hsize : ((dedupFirst ms).length : Int) ≤ maxInt32) :
    (Redis.SAdd now clock db k ms).1 = .ok ∧
    mv.version < UpdateVersion clock mv.version ∧
    getMeta (Redis.SAdd now clock db k ms).2.2 k =
      some ⟨.kSets, ((dedupFirst ms).length : Int), UpdateVersion clock mv.version, 0⟩ ∧
    (∀ m, m ∈ (Redis.SMembers now (Redis.SAdd now clock db k ms).2.2 k).2 ↔ m ∈ ms) ∧
    (∀ m, m ∉ ms → (Redis.SIsmember now (Redis.SAdd now clock db k ms).2.2 k m).2 = 0) ∧
    (Redis.SAdd now clock db k ms).2.2.data k mv.version = db.data k mv.version ∧
    (∀ rng fuel sh c st out, (∀ l x, x ∈ sh l → x ∈ l) →
      Redis.SRandmember now rng fuel sh (Redis.SAdd now clock db k ms).2.2 k c =
        .ok (st, out) →
      ∀ m ∈ out, m ∈ ms) ∧
    (∀ cursor pat cnt m,
      m ∈ (Redis.SScan now (Redis.SAdd now clock db k ms).2.2 k cursor pat cnt).2.1 →
      m ∈ ms) := by
  have hres := sadd_reuse_eq now clock db k ms mv hmeta htype hstale hsize
  set v2 := UpdateVersion clock mv.version with hv2
  have hlt : mv.version < v2 := lt_UpdateVersion clock mv.version
  have hmv2 : getMeta (Redis.SAdd now clock db k ms).2.2 k =
      some ⟨.kSets, ((dedupFirst ms).length : Int), v2, 0⟩ := by
    rw [hres]
    show getMeta (putMembers _ k v2 (dedupFirst ms)) k = _
    rw [getMeta_putMembers, getMeta_putMeta_self, htype]
  have hrun : (Redis.SAdd now clock db k ms).2.2.data k v2 =
      (dedupFirst ms).foldl putRunMember [] := by
    rw [hres]
    show (putMembers _ k v2 (dedupFirst ms)).data k v2 = _
    rw [data_putMembers, if_pos ⟨rfl, rfl⟩, data_putMeta, habove v2 hlt]
  have hmemrun : ∀ m, m ∈ (Redis.SAdd now clock db k ms).2.2.data k v2 ↔ m ∈ ms := by
    intro m
    rw [hrun, mem_foldl_putRunMember, mem_dedupFirst]
    simp
  refine ⟨?_, hlt, hmv2, ?_, ?_, ?_, ?_, ?_⟩
  · rw [hres]
  · intro m
    rw [Redis.SMembers, hmv2]
    simp only [IsStale_zero_etime, ExpectedMetaValue, decide_eq_true_eq, if_false,
      Bool.false_eq_true, not_true, ite_true, ite_false]
    exact hmemrun m
  · intro m hm
    rw [Redis.SIsmember, hmv2]
    simp only [IsStale_zero_etime, ExpectedMetaValue, decide_eq_true_eq, if_false,
      Bool.false_eq_true, not_true, ite_true, ite_false]
    rw [if_neg]
    intro hmem
    exact hm ((hmemrun m).mp hmem)
  · rw [hres]
    show (putMembers _ k v2 (dedupFirst ms)).data k mv.version = _
    rw [data_putMembers, if_neg, data_putMeta]
    rintro ⟨-, h2⟩
    exact absurd h2 (Nat.ne_of_lt hlt)
  · intro rng fuel sh c st out hsh heq m hmo
    have h1 := SRandmember_subset hsh hmv2 heq m hmo
    exact (hmemrun m).mp h1
  · intro cursor pat cnt m hmo
    have h1 := SScan_subset hmv2 m hmo
    exact (hmemrun m).mp h1

/-- Witness for C7: a count-0 Set slot at version 4 whose version-4 run
still holds a leftover record `ghost`; SAdd at clock 9 bumps the version to
9, the ghost record stays on disk but is invisible to reads. -/
theorem claim_C7_witness :
    getMeta ghostStore "k" = some ⟨.kSets, 0, 4, 0⟩ ∧
    (Redis.SAdd 0 9 ghostStore "k" ["m"]).1 = .ok ∧
    getMeta (Redis.SAdd 0 9 ghostStore "k" ["m"]).2.2 "k" = some ⟨.kSets, 1, 9, 0⟩ ∧
    (Redis.SIsmember 0 (Redis.SAdd 0 9 ghostStore "k" ["m"]).2.2 "k" "ghost").2 = 0 ∧
    (Redis.SAdd 0 9 ghostStore "k" ["m"]).2.2.data "k" 4 = ["ghost"] := by
  have h := claim_C7_version_monotonic 0 9 ghostStore "k" ["m"] ⟨.kSets, 0, 4, 0⟩
    (by decide) rfl (Or.inr rfl)
    (by
      intro u hu
      have hu2 : 4 < u := hu
      simp only [ghostStore]
      rw [if_neg]
      rintro ⟨-, h2⟩
      omega)
    (by decide)
  refine ⟨by decide, h.1, ?_, ?_, ?_⟩
  · have h2 := h.2.2.1
    simpa using h2
  · exact h.2.2.2.2.1 "ghost" (by decide)
  · have h2 := h.2.2.2.2.2.1
    simpa [ghostStore] using h2

theorem length_filter_not_mem {l sub : List String}
    (hl : l.Nodup) (hs : sub.Nodup) (hsub : sub ⊆ l) :
    (l.filter (fun x => decide (x ∉ sub))).length = l.length - sub.length := by
  have hperm : (l.filter (fun x => decide (x ∈ sub))).Perm sub := by
    rw [List.perm_ext_iff_of_nodup (List.Nodup.filter _ hl) hs]
    intro a
    simp only [List.mem_filter, decide_eq_true_eq]
    exact ⟨fun h => h.2, fun h => ⟨hsub h, h⟩⟩
  have hsplit := List.length_eq_length_filter_add (l := l) (fun x => decide (x ∈ sub))
  have hneg : (l.filter (fun x => !(decide (x ∈ sub)))) =
      (l.filter (fun x => decide (x ∉ sub))) := by
    apply List.filter_congr
    intro x _
    simp
  rw [hneg, hperm.length_eq] at hsplit
  omega

theorem spop_destroy_eq (now : Nat) (rng : Nat → Nat) (fuel : Nat) (db : DB)
    (k : String) (cnt : Int) (mv : SetsMetaValue)
    (hmeta : getMeta db k = some mv)
    (htype : mv.dataType = .kSets)
    (hstale : IsStale now mv = false)
    (hlen : mv.count = ((db.data k mv.version).length : Int))
    (hr : mv.count < cnt) :
    Redis.SPop now rng fuel db k cnt =
      .ok (.ok, db.data k mv.version, delMeta (setRun db k mv.version []) k) := by
  have hexp : ExpectedMetaValue .kSets mv = true := by
    simp [ExpectedMetaValue, htype]
  have htn : mv.count.toNat = (db.data k mv.version).length := by
    rw [hlen]
    rfl
  simp only [Redis.SPop, hmeta, hstale, Bool.false_eq_true, if_false, hexp, not_true,
    ite_false, ite_true, if_pos hr]
  rw [htn, List.take_length, List.drop_length]

theorem spop_rand_eq (now : Nat) (rng : Nat → Nat) (fuel : Nat) (db : DB)
    (k : String) (cnt : Int) (mv : SetsMetaValue) (idxs : List Nat)
    (hmeta : getMeta db k = some mv)
    (htype : mv.dataType = .kSets)
    (hstale : IsStale now mv = false)
    (h1 : ¬ mv.count < cnt)
    (hd : drawDistinct rng 0 fuel mv.count.toNat cnt.toNat [] = .ok idxs)
    (hcheck : CheckModifyCount mv.count (-cnt) = true) :
    Redis.SPop now rng fuel db k cnt =
      .ok (.ok,
        ((((db.data k mv.version).take mv.count.toNat).enum.filter
            (fun p => p.1 ∈ idxs)).take cnt.toNat).map (fun p => p.2),
        putMeta
          (setRun db k mv.version
            ((db.data k mv.version).filter
              (fun m => decide (m ∉
                ((((db.data k mv.version).take mv.count.toNat).enum.filter
                    (fun p => p.1 ∈ idxs)).take cnt.toNat).map (fun p => p.2)))))
          k { mv with count := mv.count - cnt }) := by
  have hexp : ExpectedMetaValue .kSets mv = true := by
    simp [ExpectedMetaValue, htype]
  simp only [Redis.SPop, hmeta, hstale, Bool.false_eq_true, if_false, hexp, not_true,
    ite_false, ite_true, if_neg h1, hd, hcheck]
  rfl

/-- Claim C3 as amended: when the stored count is strictly below the
request, SPop returns all members of the run, deletes every member record
and deletes the meta record itself; when the count is at least the request
(so also at equality, where the original claim expected a meta delete), it
instead pops exactly `cnt` members drawn at random from the run and puts the
meta back with the count decremented by `cnt`. -/
theorem claim_C3_spop_regimes (now : Nat) (rng : Nat → Nat) (fuel : Nat) (db : DB)
    (k : String) (cnt : Int) (mv : SetsMetaValue)
    (hmeta : getMeta db k = some mv)
    (htype : mv.dataType = .kSets)
    (hstale : IsStale now mv = false)
    (hlen : mv.count = ((db.data k mv.version).length : Int))
    (hnodup : (db.data k mv.version).Nodup)
    (hmax : mv.count ≤ maxInt32) :
    (mv.count < cnt →
      Redis.SPop now rng fuel db k cnt =
        .ok (.ok, db.data k mv.version, delMeta (setRun db k mv.version []) k)) ∧
    (∀ idxs, 0 ≤ cnt → cnt ≤ mv.count →
      drawDistinct rng 0 fuel mv.count.toNat cnt.toNat [] = .ok idxs →
      (Redis.SPop now rng fuel db k cnt).map (fun r => r.1) = .ok .ok ∧
      (Redis.SPop now rng fuel db k cnt).map (fun r => getMeta r.2.2 k) =
        .ok (some { mv with count := mv.count - cnt }) ∧
      (Redis.SPop now rng fuel db k cnt).map (fun r => (r.2.1.length : Int)) = .ok cnt ∧
      (Redis.SPop now rng fuel db k cnt).map
        (fun r => decide (r.2.1 ⊆ db.data k mv.version)) = .ok true ∧
      (Redis.SPop now rng fuel db k cnt).map
        (fun r => ((r.2.2.data k mv.version).length : Int)) = .ok (mv.count - cnt)) := by
  have htn : mv.count.toNat = (db.data k mv.version).length := by
    rw [hlen]
    rfl
  constructor
  · intro hr
    exact spop_destroy_eq now rng fuel db k cnt mv hmeta htype hstale hlen hr
  · intro idxs h0 h1 hd
    have h1' : ¬ mv.count < cnt := not_lt.mpr h1
    have hcheck : CheckModifyCount mv.count (-cnt) = true := by
      simp only [CheckModifyCount, decide_eq_true_eq]
      constructor
      · omega
      · have : mv.count + -cnt ≤ mv.count := by omega
        exact le_trans this hmax
    have hres := spop_rand_eq now rng fuel db k cnt mv idxs hmeta htype hstale h1' hd hcheck
    have hio := drawDistinct_ok List.nodup_nil (by simp) hd
    have htake : (db.data k mv.version).take mv.count.toNat = db.data k mv.version := by
      rw [htn, List.take_length]
    have hfl : (((db.data k mv.version).enum.filter (fun p => decide (p.1 ∈ idxs)))).length
        = cnt.toNat := by
      rw [length_filter_mem_enum hio.1 ?_, hio.2.2]
      intro i hi
      rw [← htn]
      exact hio.2.1 i hi
    have hpl :
        (((((db.data k mv.version).take mv.count.toNat).enum.filter
          (fun p => p.1 ∈ idxs)).take cnt.toNat).map (fun p => p.2)).length = cnt.toNat := by
      rw [htake, List.length_map, List.length_take, hfl, Nat.min_self]
    have hsubl :
        (((((db.data k mv.version).take mv.count.toNat).enum.filter
          (fun p => p.1 ∈ idxs)).take cnt.toNat).map (fun p => p.2)).Sublist
          (db.data k mv.version) := by
      rw [htake]
      have s1 : (((db.data k mv.version).enum.filter (fun p => decide (p.1 ∈ idxs))).take
          cnt.toNat).Sublist (db.data k mv.version).enum :=
        (List.take_sublist _ _).trans (List.filter_sublist _)
      have s2 := List.Sublist.map (fun p => p.2) s1
      have s3 : (db.data k mv.version).enum.map
          (fun p : Nat × String => p.2) = db.data k mv.version := by
        simp [List.enum_map_snd]
      rw [s3] at s2
      exact s2
    have hpick_nodup := hsubl.nodup hnodup
    have hpick_sub := hsubl.subset
    have hcnt_cast : ((cnt.toNat : Nat) : Int) = cnt := Int.toNat_of_nonneg h0
    refine ⟨?_, ?_, ?_, ?_, ?_⟩
    · rw [hres]
      rfl
    · rw [hres]
      show Except.ok (getMeta (putMeta _ k _) k) = _
      rw [getMeta_putMeta_self]
    · rw [hres]
      show Except.ok ((_ : List String).length : Int) = _
      rw [hpl, hcnt_cast]
    · rw [hres]
      show Except.ok (decide _) = _
      rw [decide_eq_true hpick_sub]
    · rw [hres]
      show Except.ok (((putMeta (setRun db k mv.version _) k _).data k mv.version).length : Int) = _
      rw [data_putMeta, data_setRun_self]
      rw [length_filter_not_mem hnodup hpick_nodup hpick_sub, hpl]
      congr 1
      have hle : cnt.toNat ≤ (db.data k mv.version).length := by
        rw [← htn]
        omega
      rw [Nat.cast_sub hle, ← hlen, hcnt_cast]


/-- Witness for C3 in the random regime: popping 2 of the 3 members of
`{a,b,c}` with a concrete engine pops exactly two members and leaves the
meta with count 1. -/
theorem claim_C3_spop_regimes_witness :
    (Redis.SPop 1 (fun i => i) 10 tripleStore "k" 2).map (fun r => r.1) = .ok .ok ∧
    (Redis.SPop 1 (fun i => i) 10 tripleStore "k" 2).map (fun r => (r.2.1.length : Int)) =
      .ok 2 ∧
    (Redis.SPop 1 (fun i => i) 10 tripleStore "k" 2).map (fun r => getMeta r.2.2 "k") =
      .ok (some ⟨.kSets, 1, 1, 0⟩) := by
  have h := (claim_C3_spop_regimes 1 (fun i => i) 10 tripleStore "k" 2 ⟨.kSets, 3, 1, 0⟩
    (by decide) rfl (by decide) (by decide) (by decide) (by decide)).2 [0, 1]
    (by decide) (by decide) (by decide)
  refine ⟨h.1, h.2.2.1, ?_⟩
  have h2 := h.2.1
  norm_num at h2
  exact h2
